import Mathlib

/-!
# OS-Shell: a shallow embedding of `shell.c`

The development models the read / tokenize / dispatch loop of `main` in
`src/shell.c`.

* bytes are natural numbers (`'\n'` is 10, `'&'` is 38, NUL is 0);
* `command_line` is a list of `MAX_COMMAND_LINE_LEN` bytes, `arguments` a
  list of `MAX_COMMAND_LINE_ARGS` optional offsets into `command_line`
  (a `char *` pointing into the buffer, `none` for `NULL`);
* standard input is the list of bytes still to come together with the way
  the stream ends (end-of-file or a read error) and its two indicators;
* what the operating system decides (signal delivery, the value returned by
  `fork`, whether `execvp` fails, the value returned by `waitpid`) is an
  explicit parameter `Env` of every pass through the loop;
* the calls the program makes are recorded as a list of `Event`s: the
  prompt, the newline written at end of input, `perror`, `fork`, `execvp`,
  `alarm` and `waitpid`.

Not modelled: the text of the prompt (`print_shell_prompt`), the
installation of the two handlers, the flag `timer_expired` (set by its
handler and never read), the `fflush` calls before `exit`, and the
restoration of the default SIGINT disposition in the child.
-/

namespace Shell

/-! ## Constants (shell.c lines 13-17) -/

/-- Maximum length of a command line. -/
def MAX_COMMAND_LINE_LEN : Nat := 1024

/-- Maximum number of arguments. -/
def MAX_COMMAND_LINE_ARGS : Nat := 128

/-- The array `delimiters[] = " \t\r\n"`. -/
def delimiters : List Nat := [32, 9, 13, 10]

/-- Membership in `delimiters`. -/
def isDelim (c : Nat) : Bool := delimiters.contains c

/-- Bytes of a string literal, used to write concrete inputs. -/
def bytes (s : String) : List Nat := s.toList.map Char.toNat

/-! ## The C library functions the loop calls -/

/-- Standard input: the bytes not yet consumed, how the stream ends once they
are consumed (`failing = true`: the read fails, otherwise end-of-file), and
the end-of-file and error indicators of the `FILE`. -/
structure Stdin where
  data : List Nat
  failing : Bool
  eofFlag : Bool
  errFlag : Bool
deriving DecidableEq, Repr

/-- The C library call `getchar()`: the next byte, or `EOF` (-1) with the matching indicator
set when nothing is left. -/
def getchar (s : Stdin) : Int × Stdin :=
  match s.data with
  | c :: rest => ((c : Int), { s with data := rest })
  | [] => if s.failing then (-1, { s with errFlag := true }) else (-1, { s with eofFlag := true })

/-- Characters taken by one `fgets` call that may store at most `k` of them:
the characters read, the bytes left, and whether the end of the stream was
hit while more was wanted. Reading stops after a newline. -/
def readLine : Nat → List Nat → List Nat × List Nat × Bool
  | 0, xs => ([], xs, false)
  | _ + 1, [] => ([], [], true)
  | k + 1, c :: xs =>
    if c = 10 then ([c], xs, false)
    else
      let r := readLine k xs
      (c :: r.1, r.2.1, r.2.2)

/-- Overwrite the beginning of `buf` with `xs`. -/
def writeAt0 (buf xs : List Nat) : List Nat := xs ++ buf.drop xs.length

/-- Result of `fgets`: whether the returned pointer is non-null, the buffer
and the stream afterwards. -/
structure FgetsResult where
  ok : Bool
  buf : List Nat
  stdin : Stdin
deriving DecidableEq, Repr

/-- The C library call `fgets(buf, size, stdin)`. On end-of-file with nothing read the
buffer is untouched and the result is null; on a read error the result is
null (the buffer is then indeterminate in C; the program exits without
reading it, the model leaves it untouched). -/
def fgets (buf : List Nat) (size : Nat) (s : Stdin) : FgetsResult :=
  let r := readLine (size - 1) s.data
  if r.2.2 then
    if s.failing then
      { ok := false, buf := buf, stdin := { s with data := r.2.1, errFlag := true } }
    else if r.1 = [] then
      { ok := false, buf := buf, stdin := { s with data := r.2.1, eofFlag := true } }
    else
      { ok := true, buf := writeAt0 buf (r.1 ++ [0]),
        stdin := { s with data := r.2.1, eofFlag := true } }
  else
    { ok := true, buf := writeAt0 buf (r.1 ++ [0]), stdin := { s with data := r.2.1 } }

/-- The byte at offset `p`; memory past the array is not modelled and reads
as NUL. -/
def charAt (buf : List Nat) (p : Nat) : Nat := buf.getD p 0

/-- The C string starting at offset `p`. -/
def cstr (buf : List Nat) (p : Nat) : List Nat := (buf.drop p).takeWhile (fun c => c != 0)

/-- The C library call `strlen(command_line)`. -/
def strlen (buf : List Nat) : Nat := (cstr buf 0).length

/-- The C library call `strspn(buf + p, delimiters)`. -/
def strspn (buf : List Nat) (p : Nat) : Nat :=
  ((buf.drop p).takeWhile (fun c => c != 0 && isDelim c)).length

/-- The C library call `strcspn(buf + p, delimiters)`. -/
def strcspn (buf : List Nat) (p : Nat) : Nat :=
  ((buf.drop p).takeWhile (fun c => c != 0 && !isDelim c)).length

/-- Result of one `strtok` call: the token (an offset, `none` for `NULL`),
the buffer after the call and the saved position for the next call. -/
structure StrtokResult where
  token : Option Nat
  buf : List Nat
  save : Nat
deriving DecidableEq, Repr

/-- The C library call `strtok` resumed at offset `start` (`strtok(command_line, delimiters)`
is `strtok buf 0`, `strtok(NULL, delimiters)` resumes at the saved
position): skip delimiters, return `NULL` at the terminator, otherwise
overwrite the delimiter that ends the token with NUL. -/
def strtok (buf : List Nat) (start : Nat) : StrtokResult :=
  let p := start + strspn buf start
  if charAt buf p = 0 then { token := none, buf := buf, save := p }
  else
    let e := p + strcspn buf p
    if charAt buf e = 0 then { token := some p, buf := buf, save := e }
    else { token := some p, buf := buf.set e 0, save := e + 1 }

/-! ## The tokenize loop (shell.c lines 106-114) -/

/-- Variables of the tokenize loop. -/
structure TokState where
  command_line : List Nat
  save : Nat
  arguments : List (Option Nat)
  arg_count : Nat
  token : Option Nat
deriving DecidableEq, Repr

/-- The loop `while (token != NULL && arg_count < MAX_COMMAND_LINE_ARGS - 1)`,
with a bound on the number of iterations. -/
def tokenLoop : Nat → TokState → TokState
  | 0, st => st
  | fuel + 1, st =>
    match st.token with
    | none => st
    | some t =>
      if st.arg_count < MAX_COMMAND_LINE_ARGS - 1 then
        let r := strtok st.command_line st.save
        tokenLoop fuel
          { command_line := r.buf, save := r.save,
            arguments := st.arguments.set st.arg_count (some t),
            arg_count := st.arg_count + 1, token := r.token }
      else st

/-- Lines 107-114: the first `strtok` call, the loop, and the `NULL` stored
after the last token. The loop runs at most `MAX_COMMAND_LINE_ARGS - 1`
times, so `MAX_COMMAND_LINE_ARGS` iterations are always enough. -/
def tokenize (command_line : List Nat) (arguments : List (Option Nat)) : TokState :=
  let r := strtok command_line 0
  let st := tokenLoop MAX_COMMAND_LINE_ARGS
    { command_line := r.buf, save := r.save, arguments := arguments, arg_count := 0,
      token := r.token }
  { st with arguments := st.arguments.set st.arg_count none }

/-- The strings `execvp` finds in `arguments`: the entries before the first
`NULL`, each read as a C string in `command_line`. -/
def argvStrings (command_line : List Nat) (arguments : List (Option Nat)) : List (List Nat) :=
  (arguments.takeWhile Option.isSome).map (fun a => cstr command_line (a.getD 0))

/-- Line 104: `command_line[strlen(command_line) - 2] == '&'`, the index
computed in `size_t`; `none` when the index is outside the array. -/
def backgroundFlag (command_line : List Nat) : Option Bool :=
  (command_line.get? ((strlen command_line + 2 ^ 64 - 2) % 2 ^ 64)).map (fun c => c == 38)

/-! ## The main loop (shell.c lines 69-159) -/

/-- Calls made by the program, in order. -/
inductive Event where
  | prompt
  | putNewline
  | perror (name : String)
  | fork (result : Int)
  | execvp (file : Option (List Nat)) (argv : List (List Nat))
  | alarm (seconds : Nat)
  | waitpid (pid : Int) (result : Int)
deriving DecidableEq, Repr

/-- What the operating system decides during one pass: whether SIGINT was
delivered before `ctrl_c_pressed` is tested, what `fork` returns in the
process that is followed, whether `execvp` fails, what `waitpid` returns. -/
structure Env where
  sigint : Bool
  forkResult : Int
  execFails : Bool
  waitResult : Int
deriving DecidableEq, Repr

/-- Variables of `main` that live across iterations. -/
structure ShellState where
  stdin : Stdin
  command_line : List Nat
  arguments : List (Option Nat)
  ctrl_c_pressed : Bool
deriving DecidableEq, Repr

/-- Where a pass through the loop ends. -/
inductive Control where
  /-- back at `print_shell_prompt()` (line 71) -/
  | prompting (s : ShellState)
  /-- the call `exit(code)` -/
  | exited (code : Nat)
  /-- the process image was replaced by `execvp` (child) -/
  | replaced
  /-- the loop of line 78 never ends -/
  | hang
  /-- line 104 read outside `command_line` -/
  | outOfBounds (index : Nat)
deriving DecidableEq, Repr

/-- The loop `while ((getchar()) != '\n');` of line 78, with a bound on the
number of iterations; `none` when the bound is reached. -/
def discardLoop : Nat → Stdin → Option Stdin
  | 0, _ => none
  | fuel + 1, s =>
    let r := getchar s
    if r.1 ≠ 10 then discardLoop fuel r.2 else some r.2

/-- Line 78 run to completion: more iterations than bytes left cannot change
the outcome (see `discardLoop_none_of_no_newline`). -/
def discard (s : Stdin) : Option Stdin := discardLoop (s.data.length + 1) s

/-- Lines 97-158: what follows the `do ... while`. -/
def dispatch (env : Env) (s : ShellState) : List Event × Control :=
  if s.stdin.eofFlag then ([Event.putNewline], Control.exited 0)
  else
    match backgroundFlag s.command_line with
    | none => ([], Control.outOfBounds ((strlen s.command_line + 2 ^ 64 - 2) % 2 ^ 64))
    | some background =>
      let t := tokenize s.command_line s.arguments
      if t.arg_count = 0 then
        ([], Control.prompting { s with command_line := t.command_line, arguments := t.arguments })
      else
        let arg_count := if background then t.arg_count - 1 else t.arg_count
        let arguments := if background then t.arguments.set arg_count none else t.arguments
        let s1 : ShellState := { s with command_line := t.command_line, arguments := arguments }
        if env.forkResult < 0 then
          ([Event.fork env.forkResult, Event.perror "fork"], Control.exited 1)
        else if env.forkResult = 0 then
          let call := Event.execvp ((arguments.headD none).map (cstr t.command_line))
            (argvStrings t.command_line arguments)
          if env.execFails then
            ([Event.fork env.forkResult, call, Event.perror "execvp"], Control.exited 1)
          else ([Event.fork env.forkResult, call], Control.replaced)
        else if !background then
          ([Event.fork env.forkResult, Event.alarm 10, Event.waitpid env.forkResult env.waitResult,
            Event.alarm 0], Control.prompting s1)
        else ([Event.fork env.forkResult], Control.prompting s1)

/-- The test `command_line[0] == '\n'` of line 95 and what follows it. -/
def afterBody (env : Env) (s : ShellState) : List Event × Control :=
  if charAt s.command_line 0 = 10 then ([], Control.prompting s)
  else dispatch env s

/-- One pass through the body of the `do ... while` (lines 71-95) and, when
the `do ... while` is left, through the rest of the outer loop body. -/
def pass (env : Env) (s : ShellState) : List Event × Control :=
  if s.ctrl_c_pressed || env.sigint then
    match discard s.stdin with
    | none => ([Event.prompt], Control.hang)
    | some stdin1 =>
      let r := afterBody env { s with stdin := stdin1, ctrl_c_pressed := false }
      (Event.prompt :: r.1, r.2)
  else
    let f := fgets s.command_line MAX_COMMAND_LINE_LEN s.stdin
    if !f.ok && f.stdin.eofFlag then ([Event.prompt, Event.putNewline], Control.exited 0)
    else if !f.ok && f.stdin.errFlag then ([Event.prompt, Event.perror "fgets"], Control.exited 1)
    else
      let r := afterBody env { s with stdin := f.stdin, command_line := f.buf }
      (Event.prompt :: r.1, r.2)

/-- Passes driven by a list of environments, stopping when the program
stops; the events of all passes and where the last one ended. -/
def run : List Env → ShellState → List Event × Control
  | [], s => ([], Control.prompting s)
  | env :: envs, s =>
    match pass env s with
    | (evs, Control.prompting s1) =>
      let r := run envs s1
      (evs ++ r.1, r.2)
    | (evs, c) => (evs, c)

/-- A state at program start: `command_line` and `arguments` hold whatever
the stack held (here NUL bytes and null pointers). -/
def initialState (input : List Nat) (failing : Bool) : ShellState :=
  { stdin := { data := input, failing := failing, eofFlag := false, errFlag := false },
    command_line := List.replicate MAX_COMMAND_LINE_LEN 0,
    arguments := List.replicate MAX_COMMAND_LINE_ARGS none,
    ctrl_c_pressed := false }

/-- A quiet environment: no signal, `fork` returns `pid` in the parent. -/
def parentEnv (pid : Int) : Env :=
  { sigint := false, forkResult := pid, execFails := false, waitResult := pid }

/-- The environment followed into the child: `fork` returns 0. -/
def childEnv : Env :=
  { sigint := false, forkResult := 0, execFails := false, waitResult := 0 }

/-! ## Specification-side definitions -/

/-- The last character of a line that is not whitespace or newline. -/
def lastNonDelim (line : List Nat) : Option Nat :=
  (line.filter (fun c => !isDelim c)).getLast?

/-- The line with that last non-delimiter character removed. -/
def dropLastNonDelim (line : List Nat) : List Nat :=
  ((line.reverse.takeWhile isDelim) ++ (line.reverse.dropWhile isDelim).tail).reverse

/-- The maximal delimiter-free runs of a line, in order: the line split at
every delimiter, empty pieces removed. -/
def wordsOf (line : List Nat) : List (List Nat) :=
  (line.splitOnP isDelim).filter (fun w => !w.isEmpty)

/-! ## Auxiliary definitions used in the statements and proofs -/

/-- The line of 128 one-letter words `a a ... a` followed by a newline. -/
def line128 : List Nat := (List.replicate 127 [97, 32]).flatten ++ [97, 10]

/-- The loop variables right after a `strtok` call resumed at `save`, with
`n` tokens already stored in `args`. -/
def loopState (buf : List Nat) (save : Nat) (args : List (Option Nat)) (n : Nat) : TokState :=
  { command_line := (strtok buf save).buf, save := (strtok buf save).save,
    arguments := args, arg_count := n, token := (strtok buf save).token }

/-- Facts true of `main`'s variables whenever the prompt is about to be
printed. -/
def WellFormed (s : ShellState) : Prop :=
  s.command_line.length = MAX_COMMAND_LINE_LEN ∧
  s.arguments.length = MAX_COMMAND_LINE_ARGS ∧
  s.stdin.eofFlag = false

/-! ## Lemmas on the library model -/

theorem isDelim_iff (c : Nat) : isDelim c = true ↔ c = 32 ∨ c = 9 ∨ c = 13 ∨ c = 10 := by
  simp [isDelim, delimiters]

theorem isDelim_ne_zero {c : Nat} (h : isDelim c = true) : c ≠ 0 := by
  rw [isDelim_iff] at h
  omega

theorem takeWhile_stop {α : Type} (p : α → Bool) (l : List α) (x : α) (r : List α)
    (h : ∀ a ∈ l, p a = true) (hx : p x = false) : (l ++ x :: r).takeWhile p = l := by
  rw [List.takeWhile_append_of_pos h, List.takeWhile_cons_of_neg (by simp [hx])]
  simp

theorem takeWhile_all {α : Type} (p : α → Bool) (l : List α)
    (h : ∀ a ∈ l, p a = true) : l.takeWhile p = l := by
  rw [List.takeWhile_eq_self_iff]
  exact h

theorem charAt_append (l r : List Nat) : charAt (l ++ r) l.length = r.headD 0 := by
  unfold charAt
  rw [List.getD_append_right _ _ _ _ (Nat.le_refl _)]
  cases r with
  | nil => simp
  | cons x r => simp

theorem strtok_none (pre ds junk : List Nat) (hds : ∀ c ∈ ds, isDelim c = true) :
    strtok (pre ++ (ds ++ 0 :: junk)) pre.length =
      { token := none, buf := pre ++ (ds ++ 0 :: junk), save := pre.length + ds.length } := by
  have h1 : strspn (pre ++ (ds ++ 0 :: junk)) pre.length = ds.length := by
    unfold strspn
    rw [List.drop_left, takeWhile_stop _ ds 0 junk _ (by simp)]
    intro a ha
    simp [hds a ha, isDelim_ne_zero (hds a ha)]
  have h2 : charAt (pre ++ (ds ++ 0 :: junk)) (pre.length + ds.length) = 0 := by
    rw [← List.append_assoc, ← List.length_append, charAt_append]
    rfl
  simp [strtok, h1, h2]

theorem strtok_token (pre ds t rest : List Nat) (hds : ∀ c ∈ ds, isDelim c = true)
    (ht : ∀ c ∈ t, c ≠ 0 ∧ isDelim c = false) (hne : t ≠ [])
    (hrest : ∀ c ∈ rest.head?, c = 0 ∨ isDelim c = true) :
    strtok (pre ++ (ds ++ (t ++ rest))) pre.length =
      if rest.headD 0 = 0 then
        { token := some (pre.length + ds.length), buf := pre ++ (ds ++ (t ++ rest)),
          save := pre.length + ds.length + t.length }
      else
        { token := some (pre.length + ds.length), buf := pre ++ (ds ++ (t ++ 0 :: rest.tail)),
          save := pre.length + ds.length + t.length + 1 } := by
  obtain ⟨c, t1, rfl⟩ := List.exists_cons_of_ne_nil hne
  have hc := ht c (by simp)
  have h1 : strspn (pre ++ (ds ++ (c :: t1 ++ rest))) pre.length = ds.length := by
    unfold strspn
    rw [List.drop_left, List.cons_append, takeWhile_stop _ ds c _ _ (by simp [hc.2])]
    intro a ha
    simp [hds a ha, isDelim_ne_zero (hds a ha)]
  have h2 : charAt (pre ++ (ds ++ (c :: t1 ++ rest))) (pre.length + ds.length) = c := by
    rw [← List.append_assoc, ← List.length_append, charAt_append]
    rfl
  have hq : ∀ a ∈ c :: t1, (a != 0 && !isDelim a) = true := by
    intro a ha
    have := ht a ha
    simp [this.1, this.2]
  have h3 : strcspn (pre ++ (ds ++ (c :: t1 ++ rest))) (pre.length + ds.length)
      = (c :: t1).length := by
    unfold strcspn
    rw [← List.append_assoc, ← List.length_append, List.drop_left]
    cases rest with
    | nil => simp only [List.append_nil]; rw [takeWhile_all _ _ hq]
    | cons x r =>
      rw [takeWhile_stop _ (c :: t1) x r hq]
      have := hrest x (by simp)
      rcases this with h | h
      · simp [h]
      · simp [h]
  have h4 : charAt (pre ++ (ds ++ (c :: t1 ++ rest))) (pre.length + ds.length + (c :: t1).length)
      = rest.headD 0 := by
    have : pre ++ (ds ++ (c :: t1 ++ rest)) = (pre ++ ds ++ c :: t1) ++ rest := by simp
    rw [this, ← List.length_append, ← List.length_append, charAt_append]
  have h5 : (pre ++ (ds ++ (c :: t1 ++ rest))).set (pre.length + ds.length + (c :: t1).length) 0
      = pre ++ (ds ++ (c :: t1 ++ 0 :: rest.tail)) ∨ rest = [] := by
    cases rest with
    | nil => right; rfl
    | cons x r =>
      left
      have e : pre ++ (ds ++ (c :: t1 ++ x :: r)) = (pre ++ ds ++ c :: t1) ++ x :: r := by simp
      rw [e, ← List.length_append, ← List.length_append,
        List.set_append_right _ _ (Nat.le_refl _)]
      simp
  unfold strtok
  simp only [h1, h2, h3, h4]
  rw [if_neg hc.1]
  split
  · rfl
  · rename_i hh
    rcases h5 with h5 | h5
    · rw [h5]
    · simp [h5] at hh

theorem cstr_token (pre ds t rest : List Nat) (ht : ∀ c ∈ t, c ≠ 0) :
    cstr (pre ++ (ds ++ (t ++ 0 :: rest))) (pre.length + ds.length) = t := by
  unfold cstr
  rw [← List.append_assoc, ← List.length_append, List.drop_left]
  exact takeWhile_stop _ t 0 rest (by intro a ha; simp [ht a ha]) (by simp)

/-! ## Lemmas on the specification-side split -/

theorem wordsOf_nil : wordsOf [] = [] := by
  simp [wordsOf]

theorem wordsOf_delims (ds x : List Nat) (hds : ∀ c ∈ ds, isDelim c = true) :
    wordsOf (ds ++ x) = wordsOf x := by
  induction ds with
  | nil => rfl
  | cons d ds ih =>
    have hd := hds d (by simp)
    have := ih (fun c hc => hds c (by simp [hc]))
    unfold wordsOf at this ⊢
    simp [List.splitOnP_cons, hd, this]

theorem wordsOf_single (t : List Nat) (ht : ∀ c ∈ t, isDelim c = false) (hne : t ≠ []) :
    wordsOf t = [t] := by
  unfold wordsOf
  rw [List.splitOnP_eq_single isDelim t (by intro x hx; simp [ht x hx])]
  simp [hne]

theorem wordsOf_first (t : List Nat) (d : Nat) (r : List Nat)
    (ht : ∀ c ∈ t, isDelim c = false) (hne : t ≠ []) (hd : isDelim d = true) :
    wordsOf (t ++ d :: r) = t :: wordsOf r := by
  unfold wordsOf
  rw [List.splitOnP_first isDelim t (by intro x hx; simp [ht x hx]) d hd r]
  simp [hne]

/-- A line is all delimiters, or starts (after delimiters) with a non-empty
delimiter-free run that ends the line or is followed by a delimiter. -/
theorem split_cases (s : List Nat) :
    (∀ c ∈ s, isDelim c = true) ∨
    ∃ ds t rest, s = ds ++ (t ++ rest) ∧ (∀ c ∈ ds, isDelim c = true) ∧
      (∀ c ∈ t, isDelim c = false) ∧ t ≠ [] ∧
      (rest = [] ∨ ∃ d s3, rest = d :: s3 ∧ isDelim d = true) := by
  induction s with
  | nil => left; simp
  | cons a s ih =>
    by_cases ha : isDelim a = true
    · rcases ih with h | ⟨ds, t, rest, rfl, hds, ht, hne, hr⟩
      · left
        intro c hc
        rcases List.mem_cons.1 hc with rfl | hc
        · exact ha
        · exact h c hc
      · right
        refine ⟨a :: ds, t, rest, by simp, ?_, ht, hne, hr⟩
        intro c hc
        rcases List.mem_cons.1 hc with rfl | hc
        · exact ha
        · exact hds c hc
    · right
      have ha : isDelim a = false := by simpa using ha
      rcases ih with h | ⟨ds, t, rest, rfl, hds, ht, hne, hr⟩
      · cases s with
        | nil => exact ⟨[], [a], [], by simp, by simp, by simp [ha], by simp, Or.inl rfl⟩
        | cons d s3 =>
          exact ⟨[], [a], d :: s3, by simp, by simp, by simp [ha], by simp,
            Or.inr ⟨d, s3, rfl, h d (by simp)⟩⟩
      · cases ds with
        | nil =>
          refine ⟨[], a :: t, rest, by simp, by simp, ?_, by simp, hr⟩
          intro c hc
          rcases List.mem_cons.1 hc with rfl | hc
          · exact ha
          · exact ht c hc
        | cons d ds1 =>
          exact ⟨[], [a], d :: (ds1 ++ (t ++ rest)), by simp, by simp, by simp [ha], by simp,
            Or.inr ⟨d, _, rfl, hds d (by simp)⟩⟩

theorem set_take_drop {α : Type} (args : List α) (n k : Nat) (x : α) (L : List α)
    (h : n < args.length) :
    (args.set n x).take (n + 1) ++ (L ++ (args.set n x).drop (n + 1 + k))
      = args.take n ++ ((x :: L) ++ args.drop (n + (k + 1))) := by
  rw [List.set_eq_take_append_cons_drop, if_pos h]
  have hl : (args.take n).length = n := by simp; omega
  have e1 : (args.take n ++ x :: args.drop (n + 1)).take (n + 1) = args.take n ++ [x] := by
    rw [List.take_append_eq_append_take]
    simp [hl]
  have e2 : (args.take n ++ x :: args.drop (n + 1)).drop (n + 1 + k) = args.drop (n + (k + 1)) := by
    have : n + 1 + k = (args.take n).length + (1 + k) := by omega
    rw [this, List.drop_append]
    simp [Nat.add_comm 1 k]
    congr 1
    omega
  rw [e1, e2]
  simp

/-! ## The tokenize loop computes the split -/

theorem tokenLoop_none (fuel : Nat) (st : TokState) (h : st.token = none) :
    tokenLoop fuel st = st := by
  cases fuel with
  | zero => rfl
  | succ k => simp [tokenLoop, h]

theorem tokenLoop_step (fuel : Nat) (b : List Nat) (sv : Nat) (args : List (Option Nat))
    (n tk : Nat) (hlt : n < 127) :
    tokenLoop (fuel + 1) { command_line := b, save := sv, arguments := args,
                           arg_count := n, token := some tk }
      = tokenLoop fuel (loopState b sv (args.set n (some tk)) (n + 1)) := by
  simp [tokenLoop, MAX_COMMAND_LINE_ARGS, hlt, loopState]

theorem tokenLoop_full (fuel : Nat) (st : TokState) (h : 127 ≤ st.arg_count) :
    tokenLoop fuel st = st := by
  cases fuel with
  | zero => rfl
  | succ k =>
    have : ¬ st.arg_count < 127 := by omega
    simp only [tokenLoop, MAX_COMMAND_LINE_ARGS]
    split
    · rfl
    · simp [this]

/-- Loop invariant, in closed form. Started after a `strtok` call that
resumed at the end of `pre`, with `n` tokens stored and the NUL-free text
`s` still to scan, the loop stores the offsets `offs` of the next
`127 - n` runs of `s` and only overwrites bytes of `s`. -/
theorem tokenLoop_spec : ∀ (fuel : Nat) (pre s junk : List Nat) (args : List (Option Nat))
    (n : Nat) (buf : List Nat) (save : Nat),
    buf = pre ++ (s ++ 0 :: junk) → save = pre.length →
    (∀ c ∈ s, c ≠ 0) → n ≤ 127 → 127 - n ≤ fuel → args.length = 128 →
    ∃ (m : List Nat) (offs : List Nat), m.length = s.length ∧
      (tokenLoop fuel (loopState buf save args n)).command_line = pre ++ (m ++ 0 :: junk) ∧
      (tokenLoop fuel (loopState buf save args n)).arg_count = n + offs.length ∧
      (tokenLoop fuel (loopState buf save args n)).arguments
        = args.take n ++ (offs.map some ++ args.drop (n + offs.length)) ∧
      offs.map (cstr (pre ++ (m ++ 0 :: junk))) = (wordsOf s).take (127 - n) := by
  intro fuel
  induction fuel with
  | zero =>
    intro pre s junk args n buf save hbuf hsave hs hn hfuel hargs
    have hn127 : n = 127 := by omega
    subst hbuf hsave
    simp only [tokenLoop, loopState]
    rcases split_cases s with h | ⟨ds, t, rest, rfl, hds, ht, hne, hr⟩
    · refine ⟨s, [], rfl, ?_, by simp, by simp, by simp [hn127]⟩
      rw [strtok_none pre s junk h]
    · have ht0 : ∀ c ∈ t, c ≠ 0 ∧ isDelim c = false :=
        fun c hc => ⟨hs c (by simp [hc]), ht c hc⟩
      rcases hr with rfl | ⟨d, s3, rfl, hd⟩
      · refine ⟨ds ++ t, [], by simp, ?_, by simp, by simp, by simp [hn127]⟩
        have := strtok_token pre ds t (0 :: junk) hds ht0 hne (by simp)
        simp only [List.append_nil, List.append_assoc] at this ⊢
        rw [this]
        simp
      · refine ⟨ds ++ (t ++ 0 :: s3), [], by simp, ?_, by simp, by simp, by simp [hn127]⟩
        have := strtok_token pre ds t (d :: (s3 ++ 0 :: junk)) hds ht0 hne (by simp [hd])
        simp only [List.cons_append, List.append_assoc] at this ⊢
        rw [this]
        simp [isDelim_ne_zero hd]
  | succ fuel ih =>
    intro pre s junk args n buf save hbuf hsave hs hn hfuel hargs
    subst hbuf hsave
    rcases split_cases s with h | ⟨ds, t, rest, rfl, hds, ht, hne, hr⟩
    · have e : loopState (pre ++ (s ++ 0 :: junk)) pre.length args n
          = { command_line := pre ++ (s ++ 0 :: junk), save := pre.length + s.length,
              arguments := args, arg_count := n, token := none } := by
        simp [loopState, strtok_none pre s junk h]
      rw [e, tokenLoop_none _ _ rfl]
      refine ⟨s, [], rfl, rfl, by simp, by simp, ?_⟩
      have := wordsOf_delims s [] h
      simp only [List.append_nil] at this
      simp [this, wordsOf_nil]
    · have ht0 : ∀ c ∈ t, c ≠ 0 ∧ isDelim c = false :=
        fun c hc => ⟨hs c (by simp [hc]), ht c hc⟩
      have ht1 : ∀ c ∈ t, c ≠ 0 := fun c hc => (ht0 c hc).1
      have hw0 : wordsOf (ds ++ (t ++ rest)) = wordsOf (t ++ rest) := wordsOf_delims _ _ hds
      rcases hr with rfl | ⟨d, s3, rfl, hd⟩
      · -- the run ends the text
        have hk := strtok_token pre ds t (0 :: junk) hds ht0 hne (by simp)
        simp only [List.headD_cons, if_true] at hk
        have e : loopState (pre ++ (ds ++ (t ++ []) ++ 0 :: junk)) pre.length args n
            = { command_line := pre ++ (ds ++ (t ++ 0 :: junk)),
                save := pre.length + ds.length + t.length,
                arguments := args, arg_count := n, token := some (pre.length + ds.length) } := by
          simp only [List.append_nil, List.append_assoc, loopState]
          rw [hk]
        rw [e]
        have hw : wordsOf (ds ++ (t ++ [])) = [t] := by
          rw [hw0, List.append_nil, wordsOf_single t ht hne]
        by_cases hlt : n < 127
        · rw [tokenLoop_step _ _ _ _ _ _ hlt]
          obtain ⟨m1, offs1, hm1, hc1, hn1, ha1, hw1⟩ :=
            ih (pre ++ (ds ++ t)) [] junk (args.set n (some (pre.length + ds.length))) (n + 1)
              (pre ++ (ds ++ (t ++ 0 :: junk))) (pre.length + ds.length + t.length)
              (by simp) (by simp [Nat.add_assoc]) (by simp) (by omega) (by omega) (by simp [hargs])
          have hm0 : m1 = [] := List.eq_nil_of_length_eq_zero (by simpa using hm1)
          subst hm0
          have hfin : pre ++ (ds ++ t) ++ ([] ++ 0 :: junk) = pre ++ (ds ++ (t ++ 0 :: junk)) := by
            simp
          rw [hfin] at hc1 hw1
          refine ⟨ds ++ t, (pre.length + ds.length) :: offs1, by simp, ?_, ?_, ?_, ?_⟩
          · rw [hc1]; simp
          · rw [hn1]; simp; omega
          · rw [ha1]
            exact set_take_drop args n offs1.length _ _ (by omega)
          · have h127 : 127 - n = (127 - (n + 1)) + 1 := by omega
            rw [hw, h127, List.take_succ_cons]
            simp only [List.append_assoc, List.map_cons]
            rw [cstr_token pre ds t junk ht1, hw1, wordsOf_nil]
        · rw [tokenLoop_full _ _ (by simp; omega)]
          have hn127 : n = 127 := by omega
          exact ⟨ds ++ t, [], by simp, by simp, by simp, by simp, by simp [hn127]⟩
      · -- the run is followed by the delimiter `d`
        have hd0 : d ≠ 0 := isDelim_ne_zero hd
        have hk := strtok_token pre ds t (d :: (s3 ++ 0 :: junk)) hds ht0 hne (by simp [hd])
        simp only [List.headD_cons, if_neg hd0, List.tail_cons] at hk
        have e : loopState (pre ++ (ds ++ (t ++ d :: s3) ++ 0 :: junk)) pre.length args n
            = { command_line := pre ++ (ds ++ (t ++ 0 :: (s3 ++ 0 :: junk))),
                save := pre.length + ds.length + t.length + 1,
                arguments := args, arg_count := n, token := some (pre.length + ds.length) } := by
          simp only [List.cons_append, List.append_assoc, loopState]
          rw [hk]
        rw [e]
        have hw : wordsOf (ds ++ (t ++ d :: s3)) = t :: wordsOf s3 := by
          rw [hw0, wordsOf_first t d s3 ht hne hd]
        by_cases hlt : n < 127
        · rw [tokenLoop_step _ _ _ _ _ _ hlt]
          obtain ⟨m1, offs1, hm1, hc1, hn1, ha1, hw1⟩ :=
            ih (pre ++ (ds ++ (t ++ [0]))) s3 junk (args.set n (some (pre.length + ds.length)))
              (n + 1) (pre ++ (ds ++ (t ++ 0 :: (s3 ++ 0 :: junk))))
              (pre.length + ds.length + t.length + 1)
              (by simp) (by simp [Nat.add_assoc]) (fun c hc => hs c (by simp [hc]))
              (by omega) (by omega) (by simp [hargs])
          have hfin : pre ++ (ds ++ (t ++ [0])) ++ (m1 ++ 0 :: junk)
              = pre ++ (ds ++ (t ++ 0 :: (m1 ++ 0 :: junk))) := by simp
          rw [hfin] at hc1 hw1
          refine ⟨ds ++ (t ++ 0 :: m1), (pre.length + ds.length) :: offs1, by simp [hm1],
            ?_, ?_, ?_, ?_⟩
          · rw [hc1]; simp
          · rw [hn1]; simp; omega
          · rw [ha1]
            exact set_take_drop args n offs1.length _ _ (by omega)
          · have h127 : 127 - n = (127 - (n + 1)) + 1 := by omega
            rw [hw, h127, List.take_succ_cons]
            simp only [List.append_assoc, List.map_cons, List.cons_append]
            rw [cstr_token pre ds t (m1 ++ 0 :: junk) ht1, hw1]
        · rw [tokenLoop_full _ _ (by simp; omega)]
          have hn127 : n = 127 := by omega
          exact ⟨ds ++ (t ++ 0 :: s3), [], by simp, by simp, by simp, by simp, by simp [hn127]⟩

/-- What the tokenizer of lines 107-114 leaves behind for a NUL-terminated
text `s`: the offsets of the first 127 runs, then `NULL`. -/
theorem tokenize_spec (s junk : List Nat) (args : List (Option Nat))
    (hs : ∀ c ∈ s, c ≠ 0) (hargs : args.length = 128) :
    ∃ (m : List Nat) (offs : List Nat), m.length = s.length ∧
      (tokenize (s ++ 0 :: junk) args).command_line = m ++ 0 :: junk ∧
      (tokenize (s ++ 0 :: junk) args).arg_count = offs.length ∧
      (tokenize (s ++ 0 :: junk) args).arguments
        = offs.map some ++ none :: args.drop (offs.length + 1) ∧
      offs.map (cstr (m ++ 0 :: junk)) = (wordsOf s).take 127 := by
  obtain ⟨m, offs, hm, hc, hn, ha, hw⟩ :=
    tokenLoop_spec 128 [] s junk args 0 (s ++ 0 :: junk) 0 rfl rfl hs (by omega) (by omega) hargs
  have hlen : offs.length ≤ 127 := by
    have := congrArg List.length hw
    simp at this
    omega
  have ht : tokenize (s ++ 0 :: junk) args
      = { tokenLoop 128 (loopState (s ++ 0 :: junk) 0 args 0) with
          arguments := (tokenLoop 128 (loopState (s ++ 0 :: junk) 0 args 0)).arguments.set
            (tokenLoop 128 (loopState (s ++ 0 :: junk) 0 args 0)).arg_count none } := rfl
  simp only [List.nil_append, Nat.zero_add, List.take_zero] at hc hn ha hw
  refine ⟨m, offs, hm, ?_, ?_, ?_, hw⟩
  · rw [ht]; exact hc
  · rw [ht]; exact hn
  · rw [ht]
    simp only [ha, hn]
    have : (List.map some offs).length ≤ offs.length := by simp
    rw [List.set_append_right _ _ this]
    simp only [List.length_map, Nat.sub_self]
    have hd : args.drop offs.length ≠ [] := by
      intro h
      have := congrArg List.length h
      simp at this
      omega
    obtain ⟨a, l, hal⟩ := List.exists_cons_of_ne_nil hd
    have hl : l = args.drop (offs.length + 1) := by
      have := congrArg List.tail hal
      simpa using this.symm
    rw [hal, List.set_cons_zero, hl]

theorem argvStrings_prefix (buf : List Nat) (offs : List Nat) (rest : List (Option Nat)) :
    argvStrings buf (offs.map some ++ none :: rest) = offs.map (cstr buf) := by
  unfold argvStrings
  rw [takeWhile_stop _ _ none rest (by simp) (by simp)]
  simp

theorem get_sentinel (offs : List Nat) (rest : List (Option Nat)) :
    (offs.map some ++ none :: rest).get? offs.length = some none := by
  rw [List.get?_eq_getElem?, List.getElem?_append_right (by simp)]
  simp

/-! ## Lemmas on reading a line -/

theorem readLine_line (body rest : List Nat) (h10 : ∀ c ∈ body, c ≠ 10) :
    ∀ k, body.length < k → readLine k (body ++ 10 :: rest) = (body ++ [10], rest, false) := by
  induction body with
  | nil =>
    intro k hk
    obtain ⟨j, rfl⟩ : ∃ j, k = j + 1 := ⟨k - 1, by simp at hk; omega⟩
    simp [readLine]
  | cons c body ih =>
    intro k hk
    obtain ⟨j, rfl⟩ : ∃ j, k = j + 1 := ⟨k - 1, by simp at hk; omega⟩
    have hc : c ≠ 10 := h10 c (by simp)
    have := ih (fun x hx => h10 x (by simp [hx])) j (by simp at hk; omega)
    simp [readLine, hc, this]

/-- A complete line that fits the buffer is stored whole, newline included,
followed by NUL; the indicators are untouched. -/
theorem fgets_line (buf : List Nat) (st : Stdin) (body rest : List Nat)
    (hdata : st.data = body ++ 10 :: rest) (h10 : ∀ c ∈ body, c ≠ 10)
    (hfit : body.length + 1 ≤ 1023) :
    fgets buf 1024 st =
      { ok := true, buf := body ++ 10 :: 0 :: buf.drop (body.length + 2),
        stdin := { st with data := rest } } := by
  have := readLine_line body rest h10 1023 (by omega)
  simp [fgets, hdata, this, writeAt0]

theorem wordsOf_ne_nil (l w : List Nat) (hw : w ∈ wordsOf l) : w ≠ [] := by
  unfold wordsOf at hw
  have := (List.mem_filter.1 hw).2
  intro h
  simp [h] at this

theorem strlen_line (t junk : List Nat) (ht : ∀ c ∈ t, c ≠ 0) :
    strlen (t ++ 0 :: junk) = t.length := by
  have := cstr_token [] [] t junk ht
  simp only [List.nil_append, List.length_nil, Nat.add_zero] at this
  rw [strlen, this]

/-- Line 104 on a stored line `body ++ "\n"`: the byte tested is the last
byte of `body`. -/
theorem backgroundFlag_line (body junk : List Nat) (hne : body ≠ [])
    (h0 : ∀ c ∈ body, c ≠ 0) (hlen : body.length ≤ 1022) :
    backgroundFlag (body ++ 10 :: 0 :: junk) = some (body.getLast hne == 38) := by
  have hs : ∀ c ∈ body ++ [10], c ≠ 0 := by
    intro c hc
    rcases List.mem_append.1 hc with h | h
    · exact h0 c h
    · simp at h; omega
  have hl := strlen_line (body ++ [10]) junk hs
  simp only [List.append_assoc, List.singleton_append, List.length_append,
    List.length_singleton] at hl
  have hpos : 0 < body.length := List.length_pos.2 hne
  have hidx : (body.length + 1 + 2 ^ 64 - 2) % 2 ^ 64 = body.length - 1 := by
    norm_num
    omega
  unfold backgroundFlag
  rw [hl, hidx, List.get?_eq_getElem?, List.getElem?_append_left (by omega)]
  rw [List.getLast_eq_getElem]
  rw [List.getElem?_eq_getElem (by omega)]
  rfl

theorem splitOnP_append_delim (a b : List Nat) (d : Nat) (hd : isDelim d = true) :
    (a ++ d :: b).splitOnP isDelim = a.splitOnP isDelim ++ b.splitOnP isDelim := by
  induction a with
  | nil => simp [hd]
  | cons x a ih =>
    simp only [List.cons_append, List.splitOnP_cons, ih]
    split
    · rfl
    · obtain ⟨h, r, hr⟩ := List.exists_cons_of_ne_nil (List.splitOnP_ne_nil isDelim a)
      rw [hr]
      rfl

theorem wordsOf_append_delim (a b : List Nat) (d : Nat) (hd : isDelim d = true) :
    wordsOf (a ++ d :: b) = wordsOf a ++ wordsOf b := by
  simp [wordsOf, splitOnP_append_delim a b d hd]

theorem wordsOf_newline (a : List Nat) : wordsOf (a ++ [10]) = wordsOf a := by
  rw [wordsOf_append_delim a [] 10 (by decide), wordsOf_nil, List.append_nil]

theorem charAt_zero (body x : List Nat) (hne : body ≠ []) :
    charAt (body ++ x) 0 = body.head hne := by
  obtain ⟨c, t, rfl⟩ := List.exists_cons_of_ne_nil hne
  simp [charAt]

theorem head_arguments (f : Nat → List Nat) (offs : List Nat) (rest : List (Option Nat)) :
    ((offs.map some ++ none :: rest).headD none).map f = (offs.map f).head? := by
  cases offs <;> simp

/-- One pass that reads a complete line without being interrupted: the line
is stored and control reaches the test of line 95. -/
theorem pass_line (env : Env) (s : ShellState) (body rest : List Nat)
    (hctl : s.ctrl_c_pressed = false) (hsig : env.sigint = false)
    (hdata : s.stdin.data = body ++ 10 :: rest) (h10 : ∀ c ∈ body, c ≠ 10)
    (hfit : body.length + 1 ≤ 1023) :
    pass env s =
      (Event.prompt :: (afterBody env
          { s with stdin := { s.stdin with data := rest },
                   command_line := body ++ 10 :: 0 :: s.command_line.drop (body.length + 2) }).1,
        (afterBody env
          { s with stdin := { s.stdin with data := rest },
                   command_line := body ++ 10 :: 0 :: s.command_line.drop (body.length + 2) }).2) := by
  have hf := fgets_line s.command_line s.stdin body rest hdata h10 hfit
  simp [pass, hctl, hsig, MAX_COMMAND_LINE_LEN, hf]

/-- Lines 97-143 followed into the child, for a stored line with between 1
and 127 runs: `execvp` receives the runs, without the last one when the byte
before the newline is the ampersand. -/
theorem dispatch_line_child (env : Env) (s : ShellState) (body junk : List Nat)
    (hcl : s.command_line = body ++ 10 :: 0 :: junk) (heof : s.stdin.eofFlag = false)
    (hne : body ≠ []) (h0 : ∀ c ∈ body, c ≠ 0) (hlen : body.length ≤ 1022)
    (hargs : s.arguments.length = 128)
    (hW : (wordsOf (body ++ [10])).length ≤ 127) (hW0 : wordsOf (body ++ [10]) ≠ [])
    (hfork : env.forkResult = 0) :
    dispatch env s =
      if env.execFails then
        ([Event.fork 0,
          Event.execvp
            (if body.getLast hne == 38 then (wordsOf (body ++ [10])).dropLast
              else wordsOf (body ++ [10])).head?
            (if body.getLast hne == 38 then (wordsOf (body ++ [10])).dropLast
              else wordsOf (body ++ [10])),
          Event.perror "execvp"], Control.exited 1)
      else
        ([Event.fork 0,
          Event.execvp
            (if body.getLast hne == 38 then (wordsOf (body ++ [10])).dropLast
              else wordsOf (body ++ [10])).head?
            (if body.getLast hne == 38 then (wordsOf (body ++ [10])).dropLast
              else wordsOf (body ++ [10]))], Control.replaced) := by
  have hs : ∀ c ∈ body ++ [10], c ≠ 0 := by
    intro c hc
    rcases List.mem_append.1 hc with h | h
    · exact h0 c h
    · simp at h; omega
  obtain ⟨m, offs, hm, hc, hcount, ha, hw⟩ := tokenize_spec (body ++ [10]) junk s.arguments hs hargs
  rw [List.take_of_length_le hW] at hw
  have hbuf : s.command_line = (body ++ [10]) ++ 0 :: junk := by simp [hcl]
  have hbg := backgroundFlag_line body junk hne h0 hlen
  rw [← hcl] at hbg
  rw [← hbuf] at hc hcount ha
  have hoffs : offs ≠ [] := by
    intro h
    rw [h] at hw
    exact hW0 hw.symm
  have hlen0 : offs.length ≠ 0 := fun h => hoffs (List.eq_nil_of_length_eq_zero h)
  unfold dispatch
  simp only [heof, hbg, hc, hcount, ha, hfork]
  by_cases hb : (body.getLast hne == 38) = true
  · obtain ⟨offs0, o, rfl⟩ : ∃ offs0 o, offs = offs0 ++ [o] :=
      ⟨offs.dropLast, offs.getLast hoffs, (List.dropLast_append_getLast hoffs).symm⟩
    have hset : (List.map some (offs0 ++ [o]) ++ none ::
          List.drop ((offs0 ++ [o]).length + 1) s.arguments).set ((offs0 ++ [o]).length - 1) none
        = List.map some offs0 ++ none :: none ::
          List.drop ((offs0 ++ [o]).length + 1) s.arguments := by
      have e : List.map some (offs0 ++ [o]) ++ none ::
          List.drop ((offs0 ++ [o]).length + 1) s.arguments
          = List.map some offs0 ++ (some o :: none ::
            List.drop ((offs0 ++ [o]).length + 1) s.arguments) := by simp
      have e2 : (offs0 ++ [o]).length - 1 = (List.map some offs0).length := by simp
      rw [e, e2, List.set_append_right _ _ (Nat.le_refl _)]
      simp
    have hdl : (wordsOf (body ++ [10])).dropLast = offs0.map (cstr (m ++ 0 :: junk)) := by
      rw [← hw]
      simp
    simp only [hb, if_true, hset, argvStrings_prefix, head_arguments, hdl]
    simp [hlen0]
  · have hb1 : (body.getLast hne == 38) = false := Bool.eq_false_iff.2 hb
    simp only [hb1, Bool.false_eq_true, if_false, argvStrings_prefix, head_arguments, hw]
    simp [hlen0]

/-- A text made of delimiters only yields no token. -/
theorem tokenize_blank (ds junk : List Nat) (args : List (Option Nat))
    (hds : ∀ c ∈ ds, isDelim c = true) :
    (tokenize (ds ++ 0 :: junk) args).arg_count = 0 := by
  have h := strtok_none [] ds junk hds
  simp only [List.nil_append, List.length_nil, Nat.zero_add] at h
  have e : tokenize (ds ++ 0 :: junk) args
      = { tokenLoop 128 (loopState (ds ++ 0 :: junk) 0 args 0) with
          arguments := (tokenLoop 128 (loopState (ds ++ 0 :: junk) 0 args 0)).arguments.set
            (tokenLoop 128 (loopState (ds ++ 0 :: junk) 0 args 0)).arg_count none } := rfl
  have e2 : (loopState (ds ++ 0 :: junk) 0 args 0).token = none := by
    simp [loopState, h]
  rw [e, tokenLoop_none _ _ e2]
  rfl

theorem readLine_end (data : List Nat) (h10 : ∀ c ∈ data, c ≠ 10) :
    ∀ k, data.length < k → readLine k data = (data, [], true) := by
  induction data with
  | nil =>
    intro k hk
    obtain ⟨j, rfl⟩ : ∃ j, k = j + 1 := ⟨k - 1, by simp at hk; omega⟩
    simp [readLine]
  | cons c data ih =>
    intro k hk
    obtain ⟨j, rfl⟩ : ∃ j, k = j + 1 := ⟨k - 1, by simp at hk; omega⟩
    have hc : c ≠ 10 := h10 c (by simp)
    have := ih (fun x hx => h10 x (by simp [hx])) j (by simp at hk; omega)
    simp [readLine, hc, this]

/-- The call `fgets` when the stream ends before a newline and before the
buffer is full. -/
theorem fgets_end (buf : List Nat) (st : Stdin) (h10 : ∀ c ∈ st.data, c ≠ 10)
    (hlen : st.data.length < 1023) :
    fgets buf 1024 st =
      if st.failing then
        { ok := false, buf := buf, stdin := { st with data := [], errFlag := true } }
      else if st.data = [] then
        { ok := false, buf := buf, stdin := { st with data := [], eofFlag := true } }
      else
        { ok := true, buf := writeAt0 buf (st.data ++ [0]),
          stdin := { st with data := [], eofFlag := true } } := by
  have hr := readLine_end st.data h10 1023 hlen
  simp only [fgets, hr]
  simp

/-- The loop of line 78 cannot end when no newline is left, whatever the
number of iterations. -/
theorem discardLoop_none_of_no_newline :
    ∀ (fuel : Nat) (s : Stdin), (∀ c ∈ s.data, c ≠ 10) → discardLoop fuel s = none := by
  intro fuel
  induction fuel with
  | zero => intro s _; rfl
  | succ k ih =>
    intro s h
    rcases s with ⟨data, failing, eofFlag, errFlag⟩
    cases data with
    | nil =>
      cases failing
      · simp only [discardLoop, getchar]
        simp only [Bool.false_eq_true, if_false]
        rw [if_pos (by decide)]
        exact ih _ (by simp)
      · simp only [discardLoop, getchar]
        simp only [if_true]
        rw [if_pos (by decide)]
        exact ih _ (by simp)
    | cons c rest =>
      have hc : c ≠ 10 := h c (by simp)
      have hc1 : (c : Int) ≠ 10 := by exact_mod_cast hc
      simp only [discardLoop, getchar]
      rw [if_pos hc1]
      exact ih _ (fun x hx => h x (by simp [hx]))

/-- The loop of line 78 ends right after the first newline when there is
one, as soon as the bound exceeds the number of bytes before it. -/
theorem discardLoop_newline (skipped rest : List Nat) (h : ∀ c ∈ skipped, c ≠ 10) :
    ∀ (fuel : Nat) (s : Stdin), s.data = skipped ++ 10 :: rest → skipped.length < fuel →
      discardLoop fuel s = some { s with data := rest } := by
  induction skipped with
  | nil =>
    intro fuel s hs hf
    obtain ⟨j, rfl⟩ : ∃ j, fuel = j + 1 := ⟨fuel - 1, by simp at hf; omega⟩
    rcases s with ⟨data, failing, eofFlag, errFlag⟩
    simp only [List.nil_append] at hs
    subst hs
    simp [discardLoop, getchar]
  | cons c skipped ih =>
    intro fuel s hs hf
    obtain ⟨j, rfl⟩ : ∃ j, fuel = j + 1 := ⟨fuel - 1, by simp at hf; omega⟩
    rcases s with ⟨data, failing, eofFlag, errFlag⟩
    simp only [List.cons_append] at hs
    subst hs
    have hc : c ≠ 10 := h c (by simp)
    have hc1 : (c : Int) ≠ 10 := by exact_mod_cast hc
    simp only [discardLoop, getchar]
    rw [if_pos hc1]
    exact ih (fun x hx => h x (by simp [hx])) j _ rfl (by simp at hf; omega)

/-- The tokenize loop always leaves by its own condition: with at least
`127 - arg_count` iterations allowed, it stops on a null token or on a full
argument array, never for lack of iterations. -/
theorem tokenLoop_exits : ∀ (fuel : Nat) (st : TokState), 127 - st.arg_count ≤ fuel →
    (tokenLoop fuel st).token = none ∨ 127 ≤ (tokenLoop fuel st).arg_count := by
  intro fuel
  induction fuel with
  | zero =>
    intro st h
    right
    simp only [tokenLoop]
    omega
  | succ k ih =>
    intro st h
    rcases st with ⟨cl, sv, args, n, tok⟩
    have h : 127 - n ≤ k + 1 := h
    cases tok with
    | none => left; simp [tokenLoop]
    | some t =>
      by_cases hlt : n < 127
      · rw [tokenLoop_step _ _ _ _ _ _ hlt]
        exact ih _ (by simp only [loopState]; omega)
      · right
        rw [tokenLoop_full _ _ (by simp only; omega)]
        simp only
        omega

/-- When `discard` reports that line 78 never ends, no number of iterations
ends it. -/
theorem discard_none_forever (s : Stdin) (h : discard s = none) (fuel : Nat) :
    discardLoop fuel s = none := by
  apply discardLoop_none_of_no_newline
  intro c hc hc10
  subst hc10
  obtain ⟨a, b, hab⟩ := List.append_of_mem hc
  obtain ⟨skipped, rest, hsplit, hsk⟩ : ∃ skipped rest, s.data = skipped ++ 10 :: rest ∧
      ∀ x ∈ skipped, x ≠ 10 := by
    clear h hc
    generalize s.data = l at hab
    induction l generalizing a with
    | nil => simp at hab
    | cons x l ih =>
      by_cases hx : x = 10
      · exact ⟨[], l, by simp [hx], by simp⟩
      · cases a with
        | nil => simp at hab; exact absurd hab.1 hx
        | cons y a =>
          simp only [List.cons_append, List.cons.injEq] at hab
          obtain ⟨sk, r, hl, hsk⟩ := ih a hab.2
          refine ⟨x :: sk, r, by simp [hl], ?_⟩
          intro z hz
          rcases List.mem_cons.1 hz with rfl | hz
          · exact hx
          · exact hsk z hz
  have := discardLoop_newline skipped rest hsk (s.data.length + 1) s hsplit
    (by rw [hsplit]; simp; omega)
  unfold discard at h
  rw [this] at h
  cases h

/-! ## Reachable states

The hypotheses the claims put on a state (array sizes, end-of-file
indicator clear) hold at program start and are kept by every pass that
returns to prompting. -/

theorem strtok_length (buf : List Nat) (p : Nat) : (strtok buf p).buf.length = buf.length := by
  unfold strtok
  simp only
  split
  · rfl
  · split
    · rfl
    · simp

theorem tokenLoop_length : ∀ (fuel : Nat) (st : TokState),
    (tokenLoop fuel st).command_line.length = st.command_line.length ∧
    (tokenLoop fuel st).arguments.length = st.arguments.length := by
  intro fuel
  induction fuel with
  | zero => intro st; exact ⟨rfl, rfl⟩
  | succ k ih =>
    intro st
    rcases st with ⟨cl, sv, args, n, tok⟩
    cases tok with
    | none => simp [tokenLoop]
    | some t =>
      by_cases hlt : n < 127
      · rw [tokenLoop_step _ _ _ _ _ _ hlt]
        have := ih (loopState cl sv (args.set n (some t)) (n + 1))
        simp only [loopState, strtok_length, List.length_set] at this
        exact this
      · rw [tokenLoop_full _ _ (by simp only; omega)]
        exact ⟨rfl, rfl⟩

theorem tokenize_length (buf : List Nat) (args : List (Option Nat)) :
    (tokenize buf args).command_line.length = buf.length ∧
    (tokenize buf args).arguments.length = args.length := by
  have h := tokenLoop_length 128 (loopState buf 0 args 0)
  simp only [loopState, strtok_length] at h
  have e : tokenize buf args
      = { tokenLoop 128 (loopState buf 0 args 0) with
          arguments := (tokenLoop 128 (loopState buf 0 args 0)).arguments.set
            (tokenLoop 128 (loopState buf 0 args 0)).arg_count none } := rfl
  rw [e]
  simp only [List.length_set, loopState]
  exact h

theorem readLine_length : ∀ (k : Nat) (data : List Nat), (readLine k data).1.length ≤ k := by
  intro k
  induction k with
  | zero => intro data; simp [readLine]
  | succ j ih =>
    intro data
    cases data with
    | nil => simp [readLine]
    | cons c xs =>
      by_cases hc : c = 10
      · simp [readLine, hc]
      · have := ih xs
        simp [readLine, hc]
        omega

theorem readLine_no_newline_at_end : ∀ (k : Nat) (data : List Nat),
    (readLine k data).2.2 = true → ∀ c ∈ (readLine k data).1, c ≠ 10 := by
  intro k
  induction k with
  | zero => intro data h; simp [readLine] at h
  | succ j ih =>
    intro data h
    cases data with
    | nil => simp [readLine]
    | cons c xs =>
      by_cases hc : c = 10
      · simp [readLine, hc] at h
      · simp only [readLine, hc, if_false] at h ⊢
        intro x hx
        rcases List.mem_cons.1 hx with rfl | hx
        · exact hc
        · exact ih xs h x hx

theorem fgets_length (buf : List Nat) (st : Stdin) (hbuf : buf.length = 1024) :
    (fgets buf 1024 st).buf.length = 1024 := by
  have hl := readLine_length 1023 st.data
  have hw : (writeAt0 buf ((readLine 1023 st.data).1 ++ [0])).length = 1024 := by
    simp [writeAt0]
    omega
  unfold fgets
  simp only
  split
  · split
    · exact hbuf
    · split
      · exact hbuf
      · exact hw
  · exact hw

theorem discardLoop_flags : ∀ (fuel : Nat) (s s1 : Stdin), discardLoop fuel s = some s1 →
    s1.eofFlag = s.eofFlag := by
  intro fuel
  induction fuel with
  | zero => intro s s1 h; simp [discardLoop] at h
  | succ k ih =>
    intro s s1 h
    rcases s with ⟨data, failing, eofFlag, errFlag⟩
    cases data with
    | nil =>
      rw [discardLoop_none_of_no_newline _ _ (by simp)] at h
      cases h
    | cons c rest =>
      simp only [discardLoop, getchar] at h
      split at h
      · exact ih ⟨rest, failing, eofFlag, errFlag⟩ s1 h
      · cases h
        rfl

theorem dispatch_wellFormed (env : Env) (s s1 : ShellState) (evs : List Event)
    (h : WellFormed s) (hd : dispatch env s = (evs, Control.prompting s1)) : WellFormed s1 := by
  obtain ⟨hcl, hargs, heof⟩ := h
  have hlen := tokenize_length s.command_line s.arguments
  unfold dispatch at hd
  simp only [heof, Bool.false_eq_true, if_false] at hd
  split at hd
  · cases hd
  · rename_i bg hbg
    split at hd
    · cases hd
      exact ⟨by simp [hlen.1, hcl], by simp [hlen.2, hargs], heof⟩
    · split at hd
      · cases hd
      · split at hd
        · split at hd <;> cases hd
        · split at hd
          · cases hd
            refine ⟨by simp [hlen.1, hcl], ?_, heof⟩
            simp only
            split <;> simp [hlen.2, hargs]
          · cases hd
            refine ⟨by simp [hlen.1, hcl], ?_, heof⟩
            simp only
            split <;> simp [hlen.2, hargs]

theorem afterBody_wellFormed (env : Env) (s s1 : ShellState) (evs : List Event)
    (h : WellFormed s) (hd : afterBody env s = (evs, Control.prompting s1)) : WellFormed s1 := by
  unfold afterBody at hd
  split at hd
  · cases hd
    exact h
  · exact dispatch_wellFormed env s s1 evs h hd

/-- Every pass that returns to prompting keeps the array sizes and leaves
the end-of-file indicator clear. -/
theorem pass_wellFormed (env : Env) (s s1 : ShellState) (evs : List Event)
    (h : WellFormed s) (hp : pass env s = (evs, Control.prompting s1)) : WellFormed s1 := by
  obtain ⟨hcl, hargs, heof⟩ := h
  unfold pass at hp
  split at hp
  · split at hp
    · cases hp
    · rename_i stdin1 hdis
      have hflag := discardLoop_flags _ _ _ hdis
      simp only [Prod.mk.injEq] at hp
      exact afterBody_wellFormed env { s with stdin := stdin1, ctrl_c_pressed := false } s1 _
        ⟨hcl, hargs, by simp [hflag, heof]⟩ (Prod.ext rfl hp.2)
  · simp only at hp
    split at hp
    · cases hp
    · split at hp
      · cases hp
      · rename_i h1 h2
        simp only [Prod.mk.injEq] at hp
        have hlen := fgets_length s.command_line s.stdin (by simpa [MAX_COMMAND_LINE_LEN] using hcl)
        by_cases hf : (fgets s.command_line MAX_COMMAND_LINE_LEN s.stdin).stdin.eofFlag = true
        · -- a partial line at end-of-file: the pass exits
          exfalso
          have hok : (fgets s.command_line MAX_COMMAND_LINE_LEN s.stdin).ok = true := by
            simpa [hf] using h1
          have hnl := readLine_no_newline_at_end 1023 s.stdin.data
          unfold fgets at hf hok hp
          simp only [MAX_COMMAND_LINE_LEN] at hf hok hp
          by_cases hend : (readLine 1023 s.stdin.data).2.2 = true
          · simp only [hend, if_true] at hf hok hp
            by_cases hfail : s.stdin.failing = true
            · simp [hfail] at hok
            · simp only [hfail, Bool.false_eq_true, if_false] at hf hok hp
              by_cases hnil : (readLine 1023 s.stdin.data).1 = []
              · simp [hnil] at hok
              · simp only [hnil, if_false] at hp
                have hhead : charAt (writeAt0 s.command_line
                    ((readLine 1023 s.stdin.data).1 ++ [0])) 0 ≠ 10 := by
                  unfold writeAt0
                  rw [List.append_assoc, charAt_zero _ _ hnil]
                  exact hnl hend _ (List.head_mem hnil)
                simp [afterBody, hhead, dispatch] at hp
          · simp [hend, heof] at hf
        · exact afterBody_wellFormed env
            { s with stdin := (fgets s.command_line MAX_COMMAND_LINE_LEN s.stdin).stdin,
                     command_line := (fgets s.command_line MAX_COMMAND_LINE_LEN s.stdin).buf }
            s1 _ ⟨by simpa [MAX_COMMAND_LINE_LEN] using hlen, hargs, by simpa using hf⟩
            (Prod.ext rfl hp.2)

theorem initialState_wellFormed (input : List Nat) (failing : Bool) :
    WellFormed (initialState input failing) := by
  simp [WellFormed, initialState]

/-- A pass interrupted while a newline is pending clears the flag, discards
the input up to and including that newline, and goes to the test of line 95
with `command_line` as the previous iteration left it. -/
theorem pass_interrupted (env : Env) (s : ShellState) (skipped rest : List Nat)
    (hint : (s.ctrl_c_pressed || env.sigint) = true)
    (hdata : s.stdin.data = skipped ++ 10 :: rest) (hsk : ∀ c ∈ skipped, c ≠ 10) :
    pass env s =
      (Event.prompt :: (afterBody env
          { s with stdin := { s.stdin with data := rest }, ctrl_c_pressed := false }).1,
        (afterBody env
          { s with stdin := { s.stdin with data := rest }, ctrl_c_pressed := false }).2) := by
  have hd : discard s.stdin = some { s.stdin with data := rest } :=
    discardLoop_newline skipped rest hsk _ _ hdata (by rw [hdata]; simp; omega)
  unfold pass
  rw [if_pos hint]
  simp only [hd]

/-! ## Claims -/

/-- C1 (amended): a newline-terminated line that fits the buffer, has no NUL
byte and has at most `MAX_COMMAND_LINE_ARGS - 1` = 127 delimiter-free runs is
tokenized into exactly those runs, in order, each non-empty, followed by the
`NULL` sentinel. -/
theorem tokenize_line_roundtrip (old : List Nat) (args : List (Option Nat)) (st : Stdin)
    (body rest : List Nat)
    (hargs : args.length = MAX_COMMAND_LINE_ARGS)
    (hdata : st.data = body ++ 10 :: rest)
    (h10 : ∀ c ∈ body, c ≠ 10) (h0 : ∀ c ∈ body, c ≠ 0)
    (hfit : (body ++ [10]).length + 1 ≤ MAX_COMMAND_LINE_LEN)
    (hn : (wordsOf (body ++ [10])).length ≤ MAX_COMMAND_LINE_ARGS - 1) :
    let t := tokenize (fgets old MAX_COMMAND_LINE_LEN st).buf args
    t.arg_count = (wordsOf (body ++ [10])).length ∧
    argvStrings t.command_line t.arguments = wordsOf (body ++ [10]) ∧
    t.arguments.get? t.arg_count = some none ∧
    ∀ w ∈ wordsOf (body ++ [10]), w ≠ [] := by
  intro t
  simp only [MAX_COMMAND_LINE_LEN, MAX_COMMAND_LINE_ARGS, List.length_append,
    List.length_singleton] at hargs hfit hn
  have hf := fgets_line old st body rest hdata h10 (by omega)
  have hs : ∀ c ∈ body ++ [10], c ≠ 0 := by
    intro c hc
    rcases List.mem_append.1 hc with h | h
    · exact h0 c h
    · simp at h; omega
  obtain ⟨m, offs, hm, hc, hcount, ha, hw⟩ :=
    tokenize_spec (body ++ [10]) (old.drop (body.length + 2)) args hs hargs
  have hbuf : (fgets old MAX_COMMAND_LINE_LEN st).buf
      = (body ++ [10]) ++ 0 :: old.drop (body.length + 2) := by
    simp [MAX_COMMAND_LINE_LEN, hf]
  have htk : t = tokenize ((body ++ [10]) ++ 0 :: old.drop (body.length + 2)) args := by
    simp only [t, hbuf]
  rw [List.take_of_length_le (by omega)] at hw
  have hlen : offs.length = (wordsOf (body ++ [10])).length := by
    rw [← hw]; simp
  refine ⟨?_, ?_, ?_, fun w hw => wordsOf_ne_nil _ w hw⟩
  · rw [htk, hcount, hlen]
  · rw [htk, ha, hc, argvStrings_prefix, hw]
  · rw [htk, ha, hcount]
    exact get_sentinel offs _

set_option maxRecDepth 1000000 in
/-- C1 (witness): the line `echo hi` gives exactly the two tokens `echo`
and `hi`, then `NULL`. -/
theorem tokenize_line_roundtrip_witness :
    (tokenize (fgets (initialState (bytes "echo hi\n") false).command_line
        MAX_COMMAND_LINE_LEN (initialState (bytes "echo hi\n") false).stdin).buf
      (initialState (bytes "echo hi\n") false).arguments).arg_count = 2 ∧
    argvStrings
      (tokenize (fgets (initialState (bytes "echo hi\n") false).command_line
          MAX_COMMAND_LINE_LEN (initialState (bytes "echo hi\n") false).stdin).buf
        (initialState (bytes "echo hi\n") false).arguments).command_line
      (tokenize (fgets (initialState (bytes "echo hi\n") false).command_line
          MAX_COMMAND_LINE_LEN (initialState (bytes "echo hi\n") false).stdin).buf
        (initialState (bytes "echo hi\n") false).arguments).arguments
      = [bytes "echo", bytes "hi"] := by
  have h := tokenize_line_roundtrip (initialState (bytes "echo hi\n") false).command_line
    (initialState (bytes "echo hi\n") false).arguments
    (initialState (bytes "echo hi\n") false).stdin (bytes "echo hi") []
    (by decide) (by decide) (by decide) (by decide) (by decide) (by decide)
  exact ⟨h.1.trans (by decide), h.2.1.trans (by decide)⟩

set_option maxRecDepth 1000000 in
/-- C1 (counterexample): the line made of 128 one-letter words fits the
buffer and has no NUL byte, yet only 127 tokens are stored. -/
theorem tokenize_128_words_stores_127 :
    line128.getLast? = some 10 ∧ (∀ c ∈ line128.dropLast, c ≠ 10) ∧
    line128.length + 1 ≤ MAX_COMMAND_LINE_LEN ∧ (∀ c ∈ line128, c ≠ 0) ∧
    (wordsOf line128).length = MAX_COMMAND_LINE_ARGS ∧
    (tokenize (fgets (initialState line128 false).command_line MAX_COMMAND_LINE_LEN
        (initialState line128 false).stdin).buf
      (initialState line128 false).arguments).arg_count = 127 ∧
    (tokenize (fgets (initialState line128 false).command_line MAX_COMMAND_LINE_LEN
        (initialState line128 false).stdin).buf
      (initialState line128 false).arguments).arg_count ≠ (wordsOf line128).length := by
  decide

/-- C2 (amended): for a newline-terminated line without NUL byte that fits
the buffer and has at least one character before the newline, the flag
`background` is true if and only if the character immediately before the
terminating newline is the ampersand. -/
theorem background_iff_char_before_newline (old : List Nat) (st : Stdin) (body rest : List Nat)
    (hdata : st.data = body ++ 10 :: rest)
    (h10 : ∀ c ∈ body, c ≠ 10) (h0 : ∀ c ∈ body, c ≠ 0) (hne : body ≠ [])
    (hfit : (body ++ [10]).length + 1 ≤ MAX_COMMAND_LINE_LEN) :
    ∃ b, backgroundFlag (fgets old MAX_COMMAND_LINE_LEN st).buf = some b ∧
      (b = true ↔ body.getLast? = some 38) := by
  simp only [MAX_COMMAND_LINE_LEN, List.length_append, List.length_singleton] at hfit
  have hf := fgets_line old st body rest hdata h10 (by omega)
  refine ⟨body.getLast hne == 38, ?_, ?_⟩
  · simp only [MAX_COMMAND_LINE_LEN, hf]
    exact backgroundFlag_line body _ hne h0 (by omega)
  · rw [List.getLast?_eq_getLast _ hne]
    simp

set_option maxRecDepth 1000000 in
/-- C2 (counterexample): in the line of the claim the last character that is
not whitespace is the ampersand, and the flag is false. -/
theorem background_false_before_trailing_blanks :
    lastNonDelim (bytes "  a   b\t&  \n") = some 38 ∧
    backgroundFlag (fgets (initialState (bytes "  a   b\t&  \n") false).command_line
      MAX_COMMAND_LINE_LEN (initialState (bytes "  a   b\t&  \n") false).stdin).buf
      = some false := by
  decide

set_option maxRecDepth 1000000 in
/-- C2 (witness): for the line `sleep 100 &` the flag is true. -/
theorem background_iff_char_before_newline_witness :
    backgroundFlag (fgets (initialState (bytes "sleep 100 &\n") false).command_line
      MAX_COMMAND_LINE_LEN (initialState (bytes "sleep 100 &\n") false).stdin).buf
      = some true := by
  obtain ⟨b, hb, hiff⟩ := background_iff_char_before_newline
    (initialState (bytes "sleep 100 &\n") false).command_line
    (initialState (bytes "sleep 100 &\n") false).stdin
    (bytes "sleep 100 &") [] (by decide) (by decide) (by decide) (by decide) (by decide)
  have hbt : b = true := hiff.2 (by decide)
  rw [hb, hbt]

/-- C3 (amended): for a newline-terminated line without NUL byte that fits
the buffer, whose last token is a standalone ampersand immediately followed
by the newline, and which has at least one token before it and at most 127
tokens in all, the argument vector passed to `execvp` is the token list of
the line with the ampersand removed. -/
theorem strip_standalone_marker (env : Env) (s : ShellState) (pre rest : List Nat) (d : Nat)
    (hctl : s.ctrl_c_pressed = false) (hsig : env.sigint = false)
    (heof : s.stdin.eofFlag = false) (hfork : env.forkResult = 0)
    (hexec : env.execFails = false)
    (hargs : s.arguments.length = MAX_COMMAND_LINE_ARGS)
    (hdata : s.stdin.data = pre ++ d :: 38 :: 10 :: rest)
    (hd : d = 32 ∨ d = 9 ∨ d = 13)
    (h10 : ∀ c ∈ pre, c ≠ 10) (h0 : ∀ c ∈ pre, c ≠ 0)
    (hfit : (pre ++ [d, 38, 10]).length + 1 ≤ MAX_COMMAND_LINE_LEN)
    (_hne : wordsOf pre ≠ [])
    (hn : (wordsOf (pre ++ [d, 38, 10])).length ≤ MAX_COMMAND_LINE_ARGS - 1) :
    pass env s =
      ([Event.prompt, Event.fork 0,
        Event.execvp (wordsOf (pre ++ [d, 10])).head? (wordsOf (pre ++ [d, 10]))],
       Control.replaced) := by
  simp only [MAX_COMMAND_LINE_LEN, MAX_COMMAND_LINE_ARGS, List.length_append,
    List.length_cons, List.length_nil] at hargs hfit hn
  have hdel : isDelim d = true := by
    rw [isDelim_iff]; omega
  have hbody10 : ∀ c ∈ pre ++ [d, 38], c ≠ 10 := by
    intro c hc
    rcases List.mem_append.1 hc with h | h
    · exact h10 c h
    · simp at h; omega
  have hbody0 : ∀ c ∈ pre ++ [d, 38], c ≠ 0 := by
    intro c hc
    rcases List.mem_append.1 hc with h | h
    · exact h0 c h
    · simp at h; omega
  have hbne : pre ++ [d, 38] ≠ [] := by simp
  have hblen : (pre ++ [d, 38]).length = pre.length + 2 := by simp
  have hW1 : wordsOf ((pre ++ [d, 38]) ++ [10]) = wordsOf pre ++ [[38]] := by
    rw [wordsOf_newline]
    have e : pre ++ [d, 38] = pre ++ d :: [38] := by simp
    rw [e, wordsOf_append_delim pre [38] d hdel, wordsOf_single [38] (by decide) (by simp)]
  have hW2 : wordsOf (pre ++ [d, 10]) = wordsOf pre := by
    have e : pre ++ [d, 10] = pre ++ d :: [10] := by simp
    rw [e, wordsOf_append_delim pre [10] d hdel]
    have : wordsOf [10] = [] := by decide
    rw [this, List.append_nil]
  have hW3 : wordsOf (pre ++ [d, 38, 10]) = wordsOf pre ++ [[38]] := by
    rw [← hW1]; simp
  have hp := pass_line env s (pre ++ [d, 38]) rest hctl hsig (by simp [hdata]) hbody10
    (by rw [hblen]; omega)
  rw [hp]
  have hhead : charAt ((pre ++ [d, 38]) ++ 10 :: 0 ::
      s.command_line.drop ((pre ++ [d, 38]).length + 2)) 0 ≠ 10 := by
    rw [charAt_zero _ _ hbne]
    exact hbody10 _ (List.head_mem hbne)
  have hlast : ((pre ++ [d, 38]).getLast hbne == 38) = true := by simp
  have hdisp := dispatch_line_child env
    { s with stdin := { s.stdin with data := rest },
             command_line := (pre ++ [d, 38]) ++ 10 :: 0 ::
               s.command_line.drop ((pre ++ [d, 38]).length + 2) }
    (pre ++ [d, 38]) (s.command_line.drop ((pre ++ [d, 38]).length + 2)) rfl heof hbne hbody0
    (by rw [hblen]; omega) hargs (by rw [hW1, ← hW3]; omega) (by rw [hW1]; simp) hfork
  simp only [afterBody, if_neg hhead, hdisp, hexec, hlast, if_true, hW1, hW2]
  simp

set_option maxRecDepth 1000000 in
/-- C3 (witness): the line `sleep 100 &`. -/
theorem strip_standalone_marker_witness :
    pass childEnv (initialState (bytes "sleep 100 &\n") false) =
      ([Event.prompt, Event.fork 0,
        Event.execvp (some (bytes "sleep")) [bytes "sleep", bytes "100"]],
       Control.replaced) :=
  (strip_standalone_marker childEnv (initialState (bytes "sleep 100 &\n") false)
    (bytes "sleep 100") [] 32 (by decide) (by decide) (by decide) (by decide) (by decide)
    (by decide) (by decide) (by decide) (by decide) (by decide) (by decide) (by decide)
    (by decide)).trans (by decide)

set_option maxRecDepth 1000000 in
/-- C3 (counterexample): in both lines the last non-delimiter character is
the ampersand; in the first it stays in the argument vector, in the second
the whole last token is removed with it. -/
theorem strip_marker_counterexamples :
    (lastNonDelim (bytes "  a   b\t&  \n") = some 38 ∧
      wordsOf (dropLastNonDelim (bytes "  a   b\t&  \n")) = [bytes "a", bytes "b"] ∧
      (pass childEnv (initialState (bytes "  a   b\t&  \n") false)).1 =
        [Event.prompt, Event.fork 0,
          Event.execvp (some (bytes "a")) [bytes "a", bytes "b", bytes "&"]]) ∧
    (lastNonDelim (bytes "sleep 100&\n") = some 38 ∧
      wordsOf (dropLastNonDelim (bytes "sleep 100&\n")) = [bytes "sleep", bytes "100"] ∧
      (pass childEnv (initialState (bytes "sleep 100&\n") false)).1 =
        [Event.prompt, Event.fork 0, Event.execvp (some (bytes "sleep")) [bytes "sleep"]]) := by
  decide

set_option maxRecDepth 1000000 in
/-- C4 (code at the failing input): for the lines `&` and `  &` the check
`arg_count == 0` of line 116 passes with one token, the token is then
removed, and the program forks; the child calls `execvp(NULL, [NULL])`. -/
theorem lone_marker_is_launched :
    (pass (parentEnv 7) (initialState (bytes "&\n") false)).1 = [Event.prompt, Event.fork 7] ∧
    (pass childEnv (initialState (bytes "&\n") false)).1 =
      [Event.prompt, Event.fork 0, Event.execvp none []] ∧
    (pass (parentEnv 7) (initialState (bytes "  &\n") false)).1 = [Event.prompt, Event.fork 7] ∧
    (pass childEnv (initialState (bytes "  &\n") false)).1 =
      [Event.prompt, Event.fork 0, Event.execvp none []] := by
  decide

/-- C5: a line made only of spaces, tabs and carriage returns and ended by
a newline, read by `fgets` into the buffer, gives `arg_count = 0`, and the
pass that reads it makes no call but the prompt and is back at prompting. -/
theorem blank_line_reprompts (env : Env) (s : ShellState) (ws rest : List Nat)
    (hctl : s.ctrl_c_pressed = false) (hsig : env.sigint = false)
    (heof : s.stdin.eofFlag = false)
    (hdata : s.stdin.data = ws ++ 10 :: rest)
    (hws : ∀ c ∈ ws, c = 32 ∨ c = 9 ∨ c = 13)
    (hfit : (ws ++ [10]).length + 1 ≤ MAX_COMMAND_LINE_LEN) :
    (tokenize (fgets s.command_line MAX_COMMAND_LINE_LEN s.stdin).buf s.arguments).arg_count = 0 ∧
    ∃ s1, pass env s = ([Event.prompt], Control.prompting s1) ∧ s1.stdin.data = rest ∧
      s1.ctrl_c_pressed = false := by
  simp only [MAX_COMMAND_LINE_LEN, List.length_append, List.length_singleton] at hfit
  have h10 : ∀ c ∈ ws, c ≠ 10 := by
    intro c hc
    have := hws c hc
    omega
  have h0 : ∀ c ∈ ws, c ≠ 0 := by
    intro c hc
    have := hws c hc
    omega
  have hdel : ∀ c ∈ ws ++ [10], isDelim c = true := by
    intro c hc
    rw [isDelim_iff]
    rcases List.mem_append.1 hc with h | h
    · have := hws c h
      omega
    · simp at h; omega
  have hf := fgets_line s.command_line s.stdin ws rest hdata h10 (by omega)
  have hbuf : ws ++ 10 :: 0 :: s.command_line.drop (ws.length + 2)
      = (ws ++ [10]) ++ 0 :: s.command_line.drop (ws.length + 2) := by simp
  have htok := tokenize_blank (ws ++ [10]) (s.command_line.drop (ws.length + 2)) s.arguments hdel
  rw [← hbuf] at htok
  refine ⟨by simp only [MAX_COMMAND_LINE_LEN, hf]; exact htok, ?_⟩
  rw [pass_line env s ws rest hctl hsig hdata h10 (by omega)]
  by_cases hne : ws = []
  · subst hne
    simp [afterBody, charAt, hctl]
  · have hhead : charAt (ws ++ 10 :: 0 :: s.command_line.drop (ws.length + 2)) 0 ≠ 10 := by
      rw [charAt_zero _ _ hne]
      exact h10 _ (List.head_mem hne)
    have hbg := backgroundFlag_line ws (s.command_line.drop (ws.length + 2)) hne h0 (by omega)
    simp only [afterBody, if_neg hhead, dispatch, heof, hbg, htok]
    simp [hctl]

set_option maxRecDepth 1000000 in
/-- C5 (witness): the blank line made of a space, a tab and a carriage
return, followed by the line `ls`. -/
theorem blank_line_reprompts_witness :
    (tokenize (fgets (initialState (bytes " \t\r\nls\n") false).command_line
        MAX_COMMAND_LINE_LEN (initialState (bytes " \t\r\nls\n") false).stdin).buf
      (initialState (bytes " \t\r\nls\n") false).arguments).arg_count = 0 ∧
    (pass (parentEnv 7) (initialState (bytes " \t\r\nls\n") false)).1 = [Event.prompt] := by
  obtain ⟨h0, s1, hp, _, _⟩ := blank_line_reprompts (parentEnv 7)
    (initialState (bytes " \t\r\nls\n") false)
    (bytes " \t\r") (bytes "ls\n") (by decide) (by decide) (by decide) (by decide)
    (by decide) (by decide)
  exact ⟨h0, by rw [hp]⟩

set_option maxRecDepth 1000000 in
/-- C6 (code at the failing input): the input is `ls`, newline, newline.
The first pass runs `ls`; SIGINT then sets `ctrl_c_pressed`; the second pass
clears the flag and discards the pending newline, but the `continue` of line
79 lands on the test of line 95, which sees the `l` left in `command_line`,
so the stale command is tokenized and launched again. -/
theorem interrupt_reruns_stale_command :
    (run [parentEnv 7, { sigint := true, forkResult := 8, execFails := false, waitResult := 8 }]
        (initialState (bytes "ls\n\n") false)).1 =
      [Event.prompt, Event.fork 7, Event.alarm 10, Event.waitpid 7 7, Event.alarm 0,
       Event.prompt, Event.fork 8, Event.alarm 10, Event.waitpid 8 8, Event.alarm 0] ∧
    (run [parentEnv 7, { sigint := true, forkResult := 0, execFails := false, waitResult := 0 }]
        (initialState (bytes "ls\n\n") false)).1 =
      [Event.prompt, Event.fork 7, Event.alarm 10, Event.waitpid 7 7, Event.alarm 0,
       Event.prompt, Event.fork 0, Event.execvp (some (bytes "ls")) [bytes "ls"]] := by
  decide

/-- C7: in the parent (`fork` returned a positive pid), lines 97-158 launch
a command exactly when end-of-file is not set, the index of line 104 is
inside the array and the tokenizer found at least one token. For every such
state the calls are `fork` followed by `alarm(10)`, `waitpid` on that pid,
`alarm(0)` when the flag `background` is false, whatever `waitpid` returns,
and `fork` followed by nothing when it is true; in both cases control is
back at prompting. -/
theorem parent_wait_policy (env : Env) (s : ShellState) (hpid : 0 < env.forkResult) :
    (∀ bg : Bool, s.stdin.eofFlag = false → backgroundFlag s.command_line = some bg →
      (tokenize s.command_line s.arguments).arg_count ≠ 0 →
      dispatch env s =
        (Event.fork env.forkResult ::
          (if bg then []
           else [Event.alarm 10, Event.waitpid env.forkResult env.waitResult, Event.alarm 0]),
         Control.prompting
          { s with
            command_line := (tokenize s.command_line s.arguments).command_line,
            arguments :=
              if bg then
                (tokenize s.command_line s.arguments).arguments.set
                  ((tokenize s.command_line s.arguments).arg_count - 1) none
              else (tokenize s.command_line s.arguments).arguments })) ∧
    (Event.fork env.forkResult ∈ (dispatch env s).1 →
      s.stdin.eofFlag = false ∧ (∃ bg, backgroundFlag s.command_line = some bg) ∧
      (tokenize s.command_line s.arguments).arg_count ≠ 0) := by
  have h1 : ¬ env.forkResult < 0 := by omega
  have h2 : ¬ env.forkResult = 0 := by omega
  constructor
  · intro bg heof hbg hcount
    unfold dispatch
    cases bg with
    | true => simp [heof, hbg, hcount, h1, h2]
    | false => simp [heof, hbg, hcount, h1, h2]
  · intro hfork
    unfold dispatch at hfork
    cases heof : s.stdin.eofFlag with
    | true => simp [heof] at hfork
    | false =>
      cases hbg : backgroundFlag s.command_line with
      | none => simp [heof, hbg] at hfork
      | some bg =>
        by_cases hcount : (tokenize s.command_line s.arguments).arg_count = 0
        · simp [heof, hbg, hcount] at hfork
        · exact ⟨rfl, ⟨bg, rfl⟩, hcount⟩

set_option maxRecDepth 1000000 in
/-- C7 (witness): with the foreground line `echo hi` stored, `fork`
returning 7 and `waitpid` failing with -1, the parent arms the timer, waits
and disarms; with the background line `sleep 100 &` stored it makes no call
after `fork`. -/
theorem parent_wait_policy_witness :
    (dispatch { sigint := false, forkResult := 7, execFails := false, waitResult := -1 }
        { initialState [] false with
          command_line := bytes "echo hi\n" ++ List.replicate 1016 0 }).1
      = [Event.fork 7, Event.alarm 10, Event.waitpid 7 (-1), Event.alarm 0] ∧
    (dispatch (parentEnv 7)
        { initialState [] false with
          command_line := bytes "sleep 100 &\n" ++ List.replicate 1012 0 }).1
      = [Event.fork 7] := by
  have hfg := (parent_wait_policy
    { sigint := false, forkResult := 7, execFails := false, waitResult := -1 }
    { initialState [] false with command_line := bytes "echo hi\n" ++ List.replicate 1016 0 }
    (by decide)).1 false (by decide) (by decide) (by decide)
  have hbg := (parent_wait_policy (parentEnv 7)
    { initialState [] false with
      command_line := bytes "sleep 100 &\n" ++ List.replicate 1012 0 }
    (by decide)).1 true (by decide) (by decide) (by decide)
  exact ⟨by rw [hfg]; rfl, by rw [hbg]; rfl⟩

/-- C8: when `fgets` is called and the stream ends before a newline and
before the buffer is full (nothing left, or a final partial line), the pass
prints the prompt and then either writes one newline and exits with status 0
(end-of-file) or reports `fgets` and exits with status 1 (read error); no
`fork` is made. -/
theorem end_of_input_exits (env : Env) (s : ShellState)
    (hctl : s.ctrl_c_pressed = false) (hsig : env.sigint = false)
    (heof : s.stdin.eofFlag = false)
    (h10 : ∀ c ∈ s.stdin.data, c ≠ 10)
    (hlen : s.stdin.data.length < MAX_COMMAND_LINE_LEN - 1) :
    pass env s =
      if s.stdin.failing then ([Event.prompt, Event.perror "fgets"], Control.exited 1)
      else ([Event.prompt, Event.putNewline], Control.exited 0) := by
  simp only [MAX_COMMAND_LINE_LEN] at hlen
  have hf := fgets_end s.command_line s.stdin h10 (by omega)
  cases hfail : s.stdin.failing with
  | true =>
    rw [hfail] at hf
    simp [pass, hctl, hsig, MAX_COMMAND_LINE_LEN, hf, heof]
  | false =>
    rw [hfail] at hf
    by_cases hd : s.stdin.data = []
    · rw [if_pos hd] at hf
      simp [pass, hctl, hsig, MAX_COMMAND_LINE_LEN, hf]
    · rw [if_neg hd] at hf
      have hhead : charAt (writeAt0 s.command_line (s.stdin.data ++ [0])) 0 ≠ 10 := by
        unfold writeAt0
        rw [List.append_assoc, charAt_zero _ _ hd]
        exact h10 _ (List.head_mem hd)
      simp [pass, hctl, hsig, MAX_COMMAND_LINE_LEN, hf, afterBody, hhead, dispatch]

set_option maxRecDepth 1000000 in
/-- C8 (witness): the final partial line `ls` with no newline, then
end-of-file. -/
theorem end_of_input_exits_witness :
    pass (parentEnv 7) (initialState (bytes "ls") false) =
      ([Event.prompt, Event.putNewline], Control.exited 0) :=
  (end_of_input_exits (parentEnv 7) (initialState (bytes "ls") false)
    (by decide) (by decide) (by decide) (by decide) (by decide)).trans (by decide)

set_option maxRecDepth 1000000 in
/-- C9 (code at the failing input): for the input bytes NUL, newline the
string in `command_line` has length 0 at line 104 and the index
`strlen - 2` wraps to `2 ^ 64 - 2`; after the command `a` and an interrupt
the stale string has length 1 and the index is `2 ^ 64 - 1`. -/
theorem background_index_out_of_bounds :
    strlen (fgets (initialState [0, 10] false).command_line MAX_COMMAND_LINE_LEN
      (initialState [0, 10] false).stdin).buf = 0 ∧
    pass (parentEnv 7) (initialState [0, 10] false) =
      ([Event.prompt], Control.outOfBounds (2 ^ 64 - 2)) ∧
    (run [parentEnv 7, { sigint := true, forkResult := 8, execFails := false, waitResult := 8 }]
        (initialState (bytes "a\n\n") false)).2 = Control.outOfBounds (2 ^ 64 - 1) := by
  decide

set_option maxRecDepth 1000000 in
/-- C10 (code at the failing input): on a stream with nothing left the loop
of line 78 does not end within any number of iterations, be the stream at
end-of-file or failing; with the input `ls`, newline, end-of-file and SIGINT
delivered after the first command, the second pass never leaves that loop. -/
theorem discard_never_ends_at_end_of_input :
    (∀ (fuel : Nat) (failing eofFlag errFlag : Bool),
      discardLoop fuel
        { data := [], failing := failing, eofFlag := eofFlag, errFlag := errFlag } = none) ∧
    run [parentEnv 7, { sigint := true, forkResult := 8, execFails := false, waitResult := 8 }]
        (initialState (bytes "ls\n") false) =
      ([Event.prompt, Event.fork 7, Event.alarm 10, Event.waitpid 7 7, Event.alarm 0,
        Event.prompt], Control.hang) :=
  ⟨fun fuel _ _ _ => discardLoop_none_of_no_newline fuel _ (by simp), by decide⟩

end Shell
